import Mathlib

/-!
Verification development for the `goinject` toolexec interceptor.

The Go source is embedded shallowly:
* pure helpers become Lean functions over `String` / `List String`;
* file-system and subprocess effects become explicit environment
  parameters and `Except` results;
* the `importcfg` manifest is a `List String` of lines, wrapped in
  `Option` (`none` = the file cannot be opened).

Definitions carry the names of the Go functions they embed
(`extractFilesFromPack`, `hasNonRelevantFiles`, `addMissingPkgs`, ...).
-/

namespace Goinject

/-! ## String helpers mirroring the Go standard library -/

/-- Accumulating scan behind `fieldsOf`: collect maximal whitespace-free
runs (`acc` holds the current run, reversed). -/
def fieldsAux : List Char → List Char → List String
  | [], acc => if acc = [] then [] else [String.mk acc.reverse]
  | c :: rest, acc =>
    if c.isWhitespace then
      if acc = [] then fieldsAux rest []
      else String.mk acc.reverse :: fieldsAux rest []
    else fieldsAux rest (c :: acc)

/-- Embeds `strings.Fields`: split around runs of whitespace, dropping empty fields. -/
def fieldsOf (s : String) : List String := fieldsAux s.toList []

/-- Embeds `strings.HasPrefix s pre` (also `String.startsWith`). -/
def hasPrefixStr (s pre : String) : Bool := pre.toList.isPrefixOf s.toList

/-- Embeds `filepath.Base` (unix): strip trailing slashes, then keep everything
after the final slash; `"."` for the empty path, `"/"` when the path is
all slashes. -/
def baseName (p : String) : String :=
  if p = "" then "."
  else
    let cs := p.toList.reverse.dropWhile (fun c => c = '/')
    if cs = [] then "/"
    else String.mk ((cs.takeWhile (fun c => c ≠ '/')).reverse)

/-- Scan a reversed character list for the extension: stop at a path
separator, return the suffix starting at the first `.` found. -/
def extLoop : List Char → List Char → Option (List Char)
  | [], _ => none
  | c :: rest, acc =>
    if c = '/' then none
    else if c = '.' then some (c :: acc)
    else extLoop rest (c :: acc)

/-- Embeds `filepath.Ext`: the suffix of the final element beginning at its final
dot; empty when there is no dot. -/
def extOf (p : String) : String :=
  match extLoop p.toList.reverse [] with
  | none => ""
  | some l => String.mk l

/-- Whether `pat` occurs as a contiguous sublist of `l`. -/
def listIsInfix (pat : List Char) : List Char → Bool
  | [] => pat.isEmpty
  | c :: rest => pat.isPrefixOf (c :: rest) || listIsInfix pat rest

/-- Embeds `strings.Contains line pat`. -/
def containsSub (line pat : String) : Bool :=
  listIsInfix pat.toList line.toList

/-- Embeds `strings.ReplaceAll v quote-mark empty`: strip every double quote. -/
def stripQuotes (v : String) : String :=
  String.mk (v.toList.filter (fun c => c ≠ '"'))

/-! ## File-List Extractor (`extractFilesFromPack`, goinject.go:212-227) -/

/-- Embeds `slices.Index`: index of the first occurrence, `none` when absent
(the Go function returns `-1`). -/
def sliceIndex (x : String) (l : List String) : Option Nat :=
  match l with
  | [] => none
  | y :: ys => if y = x then some 0 else (sliceIndex x ys).map (· + 1)

/-- Offset of the tool name inside `os.Args` (const `toolOffset`). -/
def toolOffset : Nat := 1

/-- Offset of the tool's arguments inside `os.Args` (const `argsOffset`). -/
def argsOffset : Nat := 2

/-- Embeds `extractFilesFromPack`: locate `-pack` in `args`; error if absent;
otherwise return the arguments strictly after it together with the index
(into `os.Args`) at which the Go files begin. -/
def extractFilesFromPack (args : List String) :
    Except String (List String × Nat) :=
  match sliceIndex "-pack" args with
  | none => .error "-pack flag is not found"
  | some packIndex => .ok (args.drop (packIndex + 1), packIndex + argsOffset + 1)

/-! ## Batch guard (`hasNonRelevantFiles`, goinject.go:190-208) -/

/-- Embeds `hasNonRelevantFiles`: `-std` present, or some file is not a `.go`
file, or some file does not start with the module root `wd`. -/
def hasNonRelevantFiles (args files : List String) (wd : String) : Bool :=
  let hasStdFlag := args.contains "-std"
  if hasStdFlag then true
  else
    let hasNonGoFile := files.any (fun s => extOf s ≠ ".go")
    if hasNonGoFile then true
    else files.any (fun s => !(hasPrefixStr s wd))

/-- Embeds `importcfgPath`: the argument right after the first `-importcfg`.
(When `-importcfg` is the final argument the Go code indexes out of
range, which also aborts the invocation; both abnormal ends are an
`Except.error` here.) -/
def importcfgPath (args : List String) : Except String String :=
  match args with
  | [] => .error "failed retrieving importcfg"
  | a :: rest =>
    if a = "-importcfg" then
      match rest with
      | b :: _ => .ok b
      | [] => .error "index out of range"
    else importcfgPath rest

/-! ## Dependency manifest patcher (goinject.go:232-279, 472-498)

The importcfg file is a list of lines; `none` models a file that cannot
be opened (for reading or for `O_APPEND|O_WRONLY`, which does not create
a missing file). `ResolvePkg` shells out to `go list`, so it is an
environment parameter `resolve : String → Except String (List (String × String))`
returning the association list of `{ImportPath, Export}` records it
builds. -/

/-- A manifest file: `some lines` when it can be opened, `none` otherwise. -/
abbrev Importcfg := Option (List String)

/-- The line appended for a package: `packagefile <name>=<path>\n`
(newline dropped; the manifest is kept as a list of lines). -/
def pkgLine (pkgName pkgPath : String) : String :=
  "packagefile " ++ pkgName ++ "=" ++ pkgPath

/-- Embeds `isPkgInImportCfg`: `false` when the file cannot be opened; otherwise
scan for a line containing `packagefile <pkgName>=`. -/
def isPkgInImportCfg (cfg : Importcfg) (pkgName : String) : Bool :=
  match cfg with
  | none => false
  | some lines => lines.any (fun line => containsSub line ("packagefile " ++ pkgName ++ "="))

/-- Embeds `addMissingPkgToImportcfg`: open in append mode (fails when the file
cannot be opened) and append `packagefile <name>=<path>\n`. -/
def addMissingPkgToImportcfg (cfg : Importcfg) (pkgName pkgPath : String) :
    Except String Importcfg :=
  match cfg with
  | none => .error "error opening file"
  | some lines => .ok (some (lines ++ [pkgLine pkgName pkgPath]))

/-- One iteration of the loop body of `addMissingPkgs` for the (already
quote-stripped) package name `pkgName`: skip if present, skip `unsafe`,
otherwise resolve and append. Also records the name when a line was
appended. -/
def addMissingPkgsStep (resolve : String → Except String (List (String × String)))
    (cfg : Importcfg) (pkgName : String) :
    Except String (Importcfg × Option String) :=
  if isPkgInImportCfg cfg pkgName then .ok (cfg, none)
  else if pkgName = "unsafe" then .ok (cfg, none)
  else
    match resolve pkgName with
    | .error e => .error ("failed resolving packages: " ++ e)
    | .ok pkgs =>
      match pkgs.lookup pkgName with
      | none => .error ("package '" ++ pkgName ++ "' not found after resolving")
      | some pkgPath =>
        match addMissingPkgToImportcfg cfg pkgName pkgPath with
        | .error e => .error ("failed adding pkg '" ++ pkgName ++ "' to importcfg: " ++ e)
        | .ok cfg2 => .ok (cfg2, some pkgName)

/-- Result of a run of `addMissingPkgs`: the manifest as left on disk
(appends made before a failure persist), the names appended during the
run, and the returned error, `none` on success. -/
structure PatchResult where
  cfg : Importcfg
  appended : List String
  err : Option String
  deriving DecidableEq

/-- Embeds `addMissingPkgs`: fold the loop body over the import list (import
spec path values still carry their double quotes, stripped per
iteration), stopping at the first error. -/
def addMissingPkgs (resolve : String → Except String (List (String × String)))
    (cfg : Importcfg) (fileImports : List String) : PatchResult :=
  match fileImports with
  | [] => ⟨cfg, [], none⟩
  | imp :: rest =>
    match addMissingPkgsStep resolve cfg (stripQuotes imp) with
    | .error e => ⟨cfg, [], some e⟩
    | .ok (cfg2, appended?) =>
      let r := addMissingPkgs resolve cfg2 rest
      ⟨r.cfg, appended?.toList ++ r.appended, r.err⟩

/-! ## SHA-256 (crypto/sha256, as used by hash.go)

Bytes are `Nat` below 256, 32-bit words are `Nat` reduced modulo `2^32`.
-/

/-- Reduce modulo `2^32`. -/
def w32 (x : Nat) : Nat := x % 4294967296

/-- Right rotation of a 32-bit word by `n` (for `0 < n < 32`). -/
def rotr (n x : Nat) : Nat := w32 (x / 2 ^ n + x % 2 ^ n * 2 ^ (32 - n))

/-- SHA-256 small sigma 0. -/
def smallSigma0 (x : Nat) : Nat := rotr 7 x ^^^ rotr 18 x ^^^ x / 8

/-- SHA-256 small sigma 1. -/
def smallSigma1 (x : Nat) : Nat := rotr 17 x ^^^ rotr 19 x ^^^ x / 1024

/-- SHA-256 big sigma 0. -/
def bigSigma0 (x : Nat) : Nat := rotr 2 x ^^^ rotr 13 x ^^^ rotr 22 x

/-- SHA-256 big sigma 1. -/
def bigSigma1 (x : Nat) : Nat := rotr 6 x ^^^ rotr 11 x ^^^ rotr 25 x

/-- SHA-256 choice function. -/
def chFun (e f g : Nat) : Nat := (e &&& f) ^^^ ((e ^^^ 4294967295) &&& g)

/-- SHA-256 majority function. -/
def majFun (a b c : Nat) : Nat := (a &&& b) ^^^ (a &&& c) ^^^ (b &&& c)

/-- The 64 SHA-256 round constants, in decimal. -/
def shaK : List Nat :=
  [1116352408, 1899447441, 3049323471, 3921009573, 961987163,
   1508970993, 2453635748, 2870763221, 3624381080, 310598401,
   607225278, 1426881987, 1925078388, 2162078206, 2614888103,
   3248222580, 3835390401, 4022224774, 264347078, 604807628,
   770255983, 1249150122, 1555081692, 1996064986, 2554220882,
   2821834349, 2952996808, 3210313671, 3336571891, 3584528711,
   113926993, 338241895, 666307205, 773529912, 1294757372,
   1396182291, 1695183700, 1986661051, 2177026350, 2456956037,
   2730485921, 2820302411, 3259730800, 3345764771, 3516065817,
   3600352804, 4094571909, 275423344, 430227734, 506948616,
   659060556, 883997877, 958139571, 1322822218, 1537002063,
   1747873779, 1955562222, 2024104815, 2227730452, 2361852424,
   2428436474, 2756734187, 3204031479, 3329325298]

/-- The SHA-256 working state: eight 32-bit words. -/
structure ShaState where
  a : Nat
  b : Nat
  c : Nat
  d : Nat
  e : Nat
  f : Nat
  g : Nat
  h : Nat

/-- The SHA-256 initial hash value, in decimal. -/
def shaInit : ShaState :=
  ⟨1779033703, 3144134277, 1013904242, 2773480762,
   1359893119, 2600822924, 528734635, 1541459225⟩

/-- Extend a message-schedule word list by `n` further words. -/
def scheduleExtend (w : List Nat) : Nat → List Nat
  | 0 => w
  | n + 1 =>
    let i := w.length
    let nw := w32 (smallSigma1 (w.getD (i - 2) 0) + w.getD (i - 7) 0 +
      smallSigma0 (w.getD (i - 15) 0) + w.getD (i - 16) 0)
    scheduleExtend (w ++ [nw]) n

/-- One SHA-256 compression round, on a `(roundConstant, scheduleWord)` pair. -/
def shaRound (s : ShaState) (kw : Nat × Nat) : ShaState :=
  let t1 := w32 (s.h + bigSigma1 s.e + chFun s.e s.f s.g + kw.1 + kw.2)
  let t2 := w32 (bigSigma0 s.a + majFun s.a s.b s.c)
  ⟨w32 (t1 + t2), s.a, s.b, s.c, w32 (s.d + t1), s.e, s.f, s.g⟩

/-- Compress one 16-word block into the running hash state. -/
def compressBlock (s : ShaState) (block : List Nat) : ShaState :=
  let ws := scheduleExtend block 48
  let t := (shaK.zip ws).foldl shaRound s
  ⟨w32 (s.a + t.a), w32 (s.b + t.b), w32 (s.c + t.c), w32 (s.d + t.d),
   w32 (s.e + t.e), w32 (s.f + t.f), w32 (s.g + t.g), w32 (s.h + t.h)⟩

/-- A 64-bit big-endian length field, as 8 bytes. -/
def be64 (n : Nat) : List Nat :=
  [n / 2 ^ 56 % 256, n / 2 ^ 48 % 256, n / 2 ^ 40 % 256, n / 2 ^ 32 % 256,
   n / 2 ^ 24 % 256, n / 2 ^ 16 % 256, n / 2 ^ 8 % 256, n % 256]

/-- SHA-256 padding: `0x80`, zeros to 56 mod 64, then the bit length. -/
def padBytes (msg : List Nat) : List Nat :=
  msg ++ [0x80] ++ List.replicate ((55 - msg.length % 64 + 64) % 64) 0 ++ be64 (8 * msg.length)

/-- Group bytes into big-endian 32-bit words. -/
def toWords : List Nat → List Nat
  | b0 :: b1 :: b2 :: b3 :: rest => (((b0 * 256 + b1) * 256 + b2) * 256 + b3) :: toWords rest
  | _ => []

/-- Split a word list into 16-word blocks. -/
def toBlocks (ws : List Nat) : List (List Nat) :=
  if h : ws = [] then [] else ws.take 16 :: toBlocks (ws.drop 16)
termination_by ws.length
decreasing_by
  simp only [List.length_drop]
  exact Nat.sub_lt (List.length_pos.mpr h) (by decide)

/-- A 32-bit word as 4 big-endian bytes. -/
def be4 (n : Nat) : List Nat := [n / 2 ^ 24 % 256, n / 2 ^ 16 % 256, n / 2 ^ 8 % 256, n % 256]

/-- The SHA-256 digest (32 bytes) of a byte sequence. -/
def sha256 (msg : List Nat) : List Nat :=
  let s := (toBlocks (toWords (padBytes msg))).foldl compressBlock shaInit
  ([s.a, s.b, s.c, s.d, s.e, s.f, s.g, s.h].map be4).flatten

/-- UTF-8 encoding of one character, as bytes. -/
def charBytes (c : Char) : List Nat :=
  let n := c.toNat
  if n < 0x80 then [n]
  else if n < 0x800 then [0xc0 + n / 64, 0x80 + n % 64]
  else if n < 0x10000 then [0xe0 + n / 4096, 0x80 + n / 64 % 64, 0x80 + n % 64]
  else [0xf0 + n / 262144, 0x80 + n / 4096 % 64, 0x80 + n / 64 % 64, 0x80 + n % 64]

/-- The UTF-8 bytes of a string (Go []byte conversion). -/
def strBytes (s : String) : List Nat := (s.toList.map charBytes).flatten

/-! ## Base64 raw-URL encoding (encoding/base64.RawURLEncoding) -/

/-- The URL-safe base64 alphabet. -/
def b64Char (n : Nat) : Char :=
  "ABCDEFGHIJKLMNOPQRSTUVWXYZabcdefghijklmnopqrstuvwxyz0123456789-_".toList.getD n 'A'

/-- Unpadded (raw) base64 encoding of a byte list. -/
def b64urlEncode : List Nat → List Char
  | b0 :: b1 :: b2 :: rest =>
    b64Char (b0 / 4) :: b64Char (b0 % 4 * 16 + b1 / 16) ::
    b64Char (b1 % 16 * 4 + b2 / 64) :: b64Char (b2 % 64) :: b64urlEncode rest
  | [b0, b1] => [b64Char (b0 / 4), b64Char (b0 % 4 * 16 + b1 / 16), b64Char (b1 % 16 * 4)]
  | [b0] => [b64Char (b0 / 4), b64Char (b0 % 4 * 16)]
  | [] => []

/-! ## Cache identity forger (hash.go / src/unnamed/part_000) -/

/-- The constant `buildIDHashLength`. -/
def buildIDHashLength : Nat := 15

/-- Embeds `encodeBuildIDHash`: base64-url-encode the first 15 bytes of the digest. -/
def encodeBuildIDHash (h : List Nat) : String :=
  String.mk (b64urlEncode (h.take buildIDHashLength))

/-- Embeds `addToolToHash execPath inputHash`: the global `hasher` is modelled as
its accumulated byte list, passed in explicitly. The function resets it,
writes `inputHash`, obtains the tool's own build id (a subprocess, here
the `toolIDRes` environment value), writes it, and returns the digest
together with the hasher's new accumulated state. -/
def addToolToHash (hasherState : List Nat) (inputHash : List Nat)
    (toolIDRes : Except String String) : Except String (List Nat × List Nat) :=
  -- hasher.Reset() discards hasherState; hasher.Write(inputHash)
  let st1 := inputHash
  match toolIDRes with
  | .error e => .error ("retrieving buildid: " ++ e)
  | .ok toolID =>
    let st2 := st1 ++ strBytes toolID
    .ok (sha256 st2, st2)

/-- The branch condition of `alterToolVersion` (part_000:30): pass the
probe line through unmodified when it holds. Go's `&&` binds tighter
than `||`, so the line is forged when the first field is the tool name,
there are at least three fields, and the second field is `version` OR
the last field starts with `buildID=`. -/
def versionLinePassThrough (toolName line : String) : Bool :=
  let f := fieldsOf line
  decide (f.length < 3) || f.headD "" != toolName ||
    (f.getD 1 "" != "version" && !hasPrefixStr (f.getLastD "") "buildID=")

/-- Environment for `alterToolVersion`: results of its three external
effects (probe subprocess, own executable path, `go tool buildid`). -/
structure ToolEnv where
  probeResult : Except String String
  execPathResult : Except String String
  buildidResult : String → Except String String

/-- Embeds `alterToolVersion`: run the probe, pass unrecognized lines through,
otherwise emit the line extended with the forged
` +<toolName> buildID=_/_/_/<hash>` field. Returns the printed output
and the global hasher's final state. -/
def alterToolVersion (env : ToolEnv) (hasherState : List Nat) (tool : String) :
    Except String (String × List Nat) :=
  match env.probeResult with
  | .error e => .error ("calling tool: " ++ e)
  | .ok line =>
    let toolName := baseName tool
    if versionLinePassThrough toolName line then
      .ok (line, hasherState)
    else
      match env.execPathResult with
      | .error e => .error ("retrieving executable path: " ++ e)
      | .ok execPath =>
        match addToolToHash hasherState (strBytes line) (env.buildidResult execPath) with
        | .error e => .error ("adding tool id to hash: " ++ e)
        | .ok (sum, st) =>
          .ok (line ++ " +" ++ toolName ++ " buildID=_/_/_/" ++ encodeBuildIDHash sum ++ "\n", st)

/-! ## `Process` control flow (goinject.go:62-181) -/

/-- The shared-variable collection of `fileImports` in `Process`
(goinject.go:147,157): every rewrite goroutine assigns the whole
variable, so after the join barrier it holds the import set of the
goroutine whose write completed last. `order` lists the per-goroutine
results in write-completion order. -/
def sharedImportsCollect (order : List (List String)) : List String :=
  order.foldl (fun _ r => r) []

/-- The union of the per-file import sets, as the spec's data flow
describes the patcher input; membership is what matters. -/
def importsUnion (perFile : List (List String)) : List String :=
  perFile.flatten

/-- Where the gating part of `Process` ends up for one invocation. -/
inductive Decision where
  | alterVersion
  | passThrough (tool : String) (args : List String)
  | panicked (msg : String)
  | rewriteBatch (files : List String) (goFilesIndex : Nat)
  deriving DecidableEq

/-- The gating logic of `Process`, up to (and including) the
`hasNonRelevantFiles` guard: `-V=full` probe, non-`compile` stage
pass-through, file extraction, module-root query, `-importcfg` lookup,
then the batch guard; any `panic(err)` becomes `Decision.panicked`. -/
def processDecision (osArgs : List String) (wdResult : Except String String) : Decision :=
  let tool := osArgs.getD toolOffset ""
  let args := osArgs.drop argsOffset
  if args = ["-V=full"] then .alterVersion
  else if baseName tool ≠ "compile" then .passThrough tool args
  else
    match extractFilesFromPack args with
    | .error e => .panicked e
    | .ok (files, goFilesIndex) =>
      match wdResult with
      | .error e => .panicked e
      | .ok wd =>
        match importcfgPath osArgs with
        | .error e => .panicked e
        | .ok _ =>
          if hasNonRelevantFiles args files wd then .passThrough tool args
          else .rewriteBatch files goFilesIndex

/-- The argument vector handed to the final `runCommand`
(goinject.go:126-128,164,179): the first `goFilesIndex` entries of
`os.Args` followed by the replacement paths. -/
def newArgsFor (osArgs : List String) (goFilesIndex : Nat) (newPaths : List String) :
    List String :=
  osArgs.take goFilesIndex ++ newPaths

/-- How the process's control flow ends. -/
inductive ExitPath where
  | returned
  | mainPanic (msg : String)
  | childCrash (msg : String)
  | exited (code : Nat)
  deriving DecidableEq

/-- Outcome of the rewrite branch of `Process`: how control flow ended,
whether the deferred `os.RemoveAll(tmpDir)` ran, and the manifest as
left on disk. -/
structure RunOutcome where
  path : ExitPath
  tmpDirRemoved : Bool
  importcfgFinal : Importcfg
  deriving DecidableEq

/-- Environment of the rewrite branch: per-file rewrite results
(`processFile`), the `go list` resolver, the manifest, and the real
compiler's exit status at the final dispatch. -/
structure BatchEnv where
  files : List String
  processFileResult : String → Except String (String × List String)
  resolve : String → Except String (List (String × String))
  importcfg : Importcfg
  compilerOk : Bool

/-- The imports assigned to the shared `fileImports` variable by the
goroutine for file `f` (empty when its `processFile` failed, but then
the run crashes anyway). -/
def importsOf (env : BatchEnv) (f : String) : List String :=
  match env.processFileResult f with
  | .ok (_, imps) => imps
  | .error _ => []

/-- The rewrite branch of `Process` after the guard (goinject.go:139-180),
with Go's termination semantics made explicit:
* `defer os.RemoveAll(tmpDir)` runs when `Process` returns and when the
  main goroutine panics;
* a `panic(err)` inside a spawned rewrite goroutine (goinject.go:159)
  crashes the whole process without running the main goroutine's
  deferred calls;
* `runCommand` calls `os.Exit(1)` on a compiler failure
  (goinject.go:526), which terminates without running deferred calls.
`order` is the goroutines' write-completion order. -/
def processBatchRun (env : BatchEnv) (order : List String) : RunOutcome :=
  if env.files.any (fun f => match env.processFileResult f with
      | .error _ => true | .ok _ => false) then
    ⟨.childCrash "processFile failed", false, env.importcfg⟩
  else
    let fileImports := sharedImportsCollect (order.map (importsOf env))
    let r := addMissingPkgs env.resolve env.importcfg fileImports
    match r.err with
    | some e => ⟨.mainPanic e, true, r.cfg⟩
    | none =>
      if env.compilerOk then ⟨.returned, true, r.cfg⟩
      else ⟨.exited 1, false, r.cfg⟩

/-! ## Rewrite pipeline (`processFile`, goinject.go:288-341)

The dst decorator/restorer and the Go parser are external libraries
(out of scope per the spec), so the parse/print round trip is modelled
from the spec, §4.4 and glossary: parsing recovers the syntax tree, the
import-aware restorer auto-inserts an import for every package the file
references but does not import, and the prepended `/*line*/` directive
is a comment invisible to the parse. -/

/-- Modelled from the spec: a parsed source file, §4.4 — declared import
paths, the package paths the declarations reference, and the remaining
declaration text, opaque here. -/
structure GoSrcFile where
  imports : List String
  refs : List String
  decls : List String
  deriving DecidableEq

/-- Modelled from the spec: serialized source text — an optional leading
`/*line*/` directive comment plus the file it renders. -/
structure FileText where
  directive : Option String
  file : GoSrcFile
  deriving DecidableEq

/-- Modelled from the spec: `dstFile` / the parse step — recover the
syntax tree; the directive comment does not affect it. -/
def parseGoFile (t : FileText) : GoSrcFile := t.file

/-- Modelled from the spec: the import-aware restorer (§4.4 step 3) —
auto-insert an import declaration, once, for every package referenced
but not imported. -/
def restorerPrint (f : GoSrcFile) : GoSrcFile :=
  { f with imports := f.imports ++ (f.refs.filter (fun r => ¬ f.imports.contains r)).dedup }

/-- A file is well-formed when every package it references is imported. -/
def WellFormedSrc (f : GoSrcFile) : Prop :=
  ∀ r ∈ f.refs, r ∈ f.imports

/-- Embeds `processFile` over the modelled parse/print: parse, apply the
modifier, print through the restorer, prepend the `/*line*/` directive,
write to `tmpDir/<basename>`, then re-parse the written text and return
its imports (goinject.go:288-341). -/
def processFileModel (tmpDir path : String) (modify : GoSrcFile → GoSrcFile)
    (orig : FileText) : String × List String :=
  let f := parseGoFile orig
  let f2 := modify f
  let written : FileText :=
    ⟨some ("/*line " ++ path ++ ":1:1*/"), restorerPrint f2⟩
  let newFileName := tmpDir ++ "/" ++ baseName path
  let reparsed := parseGoFile written
  (newFileName, reparsed.imports)

/-- The line shape under which, per the spec, the forger rewrites: at
least three fields, first field the tool's base name, second field
`version`, AND trailing field prefixed with the identity marker. -/
def claimedForgeShape (toolName line : String) : Bool :=
  let f := fieldsOf line
  decide (3 ≤ f.length) && f.headD "" == toolName && f.getD 1 "" == "version" &&
    hasPrefixStr (f.getLastD "") "buildID="

/-! ## Helper lemmas -/

theorem sliceIndex_eq_none_iff (x : String) (l : List String) :
    sliceIndex x l = none ↔ x ∉ l := by
  induction l with
  | nil => simp [sliceIndex]
  | cons y ys ih =>
    by_cases hy : y = x
    · subst hy
      simp [sliceIndex]
    · simp only [sliceIndex, if_neg hy, List.mem_cons]
      constructor
      · intro hmap hmem
        have hnone : sliceIndex x ys = none := by
          cases h : sliceIndex x ys with
          | none => rfl
          | some k => rw [h] at hmap; simp at hmap
        rcases hmem with rfl | hm
        · exact hy rfl
        · exact (ih.mp hnone) hm
      · intro hmem
        have hnone : sliceIndex x ys = none :=
          ih.mpr (fun hm => hmem (Or.inr hm))
        rw [hnone]
        rfl

theorem sliceIndex_some_lt (x : String) (l : List String) (k : Nat)
    (h : sliceIndex x l = some k) : k < l.length := by
  induction l generalizing k with
  | nil => simp [sliceIndex] at h
  | cons y ys ih =>
    by_cases hy : y = x
    · simp [sliceIndex, hy] at h
      simp only [List.length_cons]
      omega
    · simp only [sliceIndex, if_neg hy, Option.map_eq_some'] at h
      obtain ⟨k', hk', rfl⟩ := h
      have := ih k' hk'
      simp only [List.length_cons]
      omega

theorem sliceIndex_append_last (x : String) (l : List String) (h : x ∉ l) :
    sliceIndex x (l ++ [x]) = some l.length := by
  induction l with
  | nil => simp [sliceIndex]
  | cons y ys ih =>
    have hy : y ≠ x := fun hh => h (by simp [hh])
    have hys : sliceIndex x (ys ++ [x]) = some ys.length :=
      ih (fun hm => h (List.mem_cons_of_mem _ hm))
    simp [sliceIndex, hy, hys]

/-! ## Claim theorems -/

/-- C7: `extractFilesFromPack` fails exactly when `-pack` is absent from
the arguments; when `-pack` first occurs at index `k`, the returned file
list is exactly the arguments strictly after it; and a `-pack` with
nothing after it is valid, yielding an empty file list whose rewrite is
a no-op: the dispatched vector is the unchanged `os.Args` and the
manifest patcher leaves the manifest untouched. -/
theorem extractFilesFromPack_spec (args : List String) :
    ((∃ e, extractFilesFromPack args = .error e) ↔ "-pack" ∉ args) ∧
    (∀ k, sliceIndex "-pack" args = some k →
      extractFilesFromPack args = .ok (args.drop (k + 1), k + argsOffset + 1)) ∧
    (∀ l, args = l ++ ["-pack"] → "-pack" ∉ l →
      extractFilesFromPack args = .ok ([], l.length + argsOffset + 1) ∧
      ∀ a0 t resolve cfg,
        newArgsFor (a0 :: t :: args) (l.length + argsOffset + 1) [] = a0 :: t :: args ∧
        addMissingPkgs resolve cfg (sharedImportsCollect []) = ⟨cfg, [], none⟩) := by
  refine ⟨?_, ?_, ?_⟩
  · rw [← sliceIndex_eq_none_iff "-pack" args]
    unfold extractFilesFromPack
    cases h : sliceIndex "-pack" args <;> simp [h]
  · intro k hk
    unfold extractFilesFromPack
    rw [hk]
  · intro l hl hnot
    have hk : sliceIndex "-pack" args = some l.length := by
      subst hl
      exact sliceIndex_append_last _ _ hnot
    have hext : extractFilesFromPack args
        = .ok (args.drop (l.length + 1), l.length + argsOffset + 1) := by
      unfold extractFilesFromPack
      rw [hk]
    have hdrop : args.drop (l.length + 1) = [] := by
      apply List.drop_eq_nil_of_le
      simp [hl]
    refine ⟨by rw [hext, hdrop], ?_⟩
    intro a0 t resolve cfg
    constructor
    · have hlen : (a0 :: t :: args).take (l.length + argsOffset + 1) = a0 :: t :: args :=
        List.take_of_length_le (by simp [hl, argsOffset])
      simp [newArgsFor, hlen]
    · simp [sharedImportsCollect, addMissingPkgs]

/-- C7 witness: a concrete argument vector with `-pack` last, and one
with `-pack` absent. -/
theorem extractFilesFromPack_spec_witness :
    extractFilesFromPack ["-o", "x.a", "-pack"] = .ok ([], 5) ∧
    newArgsFor ["inj", "compile", "-o", "x.a", "-pack"] 5 [] =
      ["inj", "compile", "-o", "x.a", "-pack"] ∧
    ("-pack" ∉ (["-o", "x.a"] : List String) ∧
      ∃ e, extractFilesFromPack ["-o", "x.a"] = .error e) := by
  have h := (extractFilesFromPack_spec ["-o", "x.a", "-pack"]).2.2 ["-o", "x.a"] rfl (by decide)
  have habs := (extractFilesFromPack_spec ["-o", "x.a"]).1
  exact ⟨h.1, (h.2 "inj" "compile" (fun _ => .error "") none).1,
    by decide, habs.mpr (by decide)⟩

/-- C5: with the marker at position `k` of the tool arguments and `m`
files after it, the computed splice index is `k` plus the argument
offset plus one; splicing `m` replacement paths there places them
starting at exactly that index of the new vector, and the new vector has
the same length as the original `os.Args`. -/
theorem spliceIndex_spec (a0 t : String) (args : List String) (k : Nat)
    (newPaths : List String)
    (hk : sliceIndex "-pack" args = some k)
    (hm : newPaths.length = args.length - (k + 1)) :
    extractFilesFromPack args = .ok (args.drop (k + 1), k + argsOffset + 1) ∧
    (newArgsFor (a0 :: t :: args) (k + argsOffset + 1) newPaths).length
      = (a0 :: t :: args).length ∧
    (newArgsFor (a0 :: t :: args) (k + argsOffset + 1) newPaths).drop (k + argsOffset + 1)
      = newPaths := by
  have hklt : k < args.length := sliceIndex_some_lt _ _ _ hk
  have htake : ((a0 :: t :: args).take (k + argsOffset + 1)).length = k + argsOffset + 1 := by
    rw [List.length_take]
    simp only [List.length_cons, argsOffset]
    omega
  refine ⟨?_, ?_, ?_⟩
  · unfold extractFilesFromPack
    rw [hk]
  · rw [newArgsFor, List.length_append, htake, hm]
    simp only [List.length_cons, argsOffset]
    omega
  · rw [newArgsFor]
    exact List.drop_left' htake

/-- C5 witness: `-pack` at position 2 of the arguments, one trailing
file, one replacement path. -/
theorem spliceIndex_spec_witness :
    extractFilesFromPack ["-o", "x.a", "-pack", "/proj/a.go"]
      = .ok (["/proj/a.go"], 5) ∧
    (newArgsFor ["inj", "compile", "-o", "x.a", "-pack", "/proj/a.go"] 5
        ["/tmp/d/a.go"]).length
      = (["inj", "compile", "-o", "x.a", "-pack", "/proj/a.go"] : List String).length ∧
    (newArgsFor ["inj", "compile", "-o", "x.a", "-pack", "/proj/a.go"] 5
        ["/tmp/d/a.go"]).drop 5
      = ["/tmp/d/a.go"] :=
  spliceIndex_spec "inj" "compile" ["-o", "x.a", "-pack", "/proj/a.go"] 2
    ["/tmp/d/a.go"] (by decide) (by decide)

/-- C4: a compile-stage batch in which some file lacks the `.go`
extension, or the arguments contain `-std`, or some file path is not
prefixed by the module root, is skipped whole: `Process` decides to run
the original tool with the original, unmodified arguments and rewrites
no file. -/
theorem batch_guard_all_or_nothing (a0 t : String) (args : List String)
    (wd : String) (files : List String) (idx : Nat)
    (hnotV : args ≠ ["-V=full"])
    (hbase : baseName t = "compile")
    (hex : extractFilesFromPack args = .ok (files, idx))
    (hicfg : ∃ p, importcfgPath (a0 :: t :: args) = .ok p)
    (hguard : (∃ f ∈ files, extOf f ≠ ".go") ∨ "-std" ∈ args ∨
      ∃ f ∈ files, ¬ (hasPrefixStr f wd = true)) :
    processDecision (a0 :: t :: args) (.ok wd) = .passThrough t args := by
  obtain ⟨p, hp⟩ := hicfg
  have hguardb : hasNonRelevantFiles args files wd = true := by
    unfold hasNonRelevantFiles
    simp
    rcases hguard with ⟨f, hf, hx⟩ | h | ⟨f, hf, hx⟩
    · exact Or.inr (Or.inl ⟨f, hf, hx⟩)
    · exact Or.inl h
    · exact Or.inr (Or.inr ⟨f, hf, by simpa using hx⟩)
  unfold processDecision
  simp only [toolOffset, argsOffset, List.getD_cons_succ, List.getD_cons_zero,
    List.drop_succ_cons, List.drop_zero]
  rw [if_neg hnotV, if_neg (by simp [hbase])]
  simp only [hex, hp, hguardb, if_true]

/-- C4 witness: a batch of one valid file and one `.s` file under the
module root, with `-pack` and `-importcfg` present. -/
theorem batch_guard_all_or_nothing_witness :
    processDecision
      ["inj", "/go/pkg/tool/linux_amd64/compile",
       "-importcfg", "icfg", "-pack", "/proj/a.go", "/proj/b.s"]
      (.ok "/proj")
    = .passThrough "/go/pkg/tool/linux_amd64/compile"
        ["-importcfg", "icfg", "-pack", "/proj/a.go", "/proj/b.s"] :=
  batch_guard_all_or_nothing "inj" "/go/pkg/tool/linux_amd64/compile"
    ["-importcfg", "icfg", "-pack", "/proj/a.go", "/proj/b.s"] "/proj"
    ["/proj/a.go", "/proj/b.s"] 5
    (by decide) (by decide) rfl ⟨"icfg", rfl⟩
    (Or.inl ⟨"/proj/b.s", by decide, by decide⟩)

/-- C2 counterexample: on the probe line `compile version devel` the
trailing field lacks the `buildID=` marker, so the claimed shape does
not hold — yet the code takes the forge branch (Go's `&&` binds tighter
than `||` in the condition at part_000:30) and emits a line different
from the input instead of passing it through. -/
theorem alterToolVersion_shape_cex :
    claimedForgeShape "compile" "compile version devel" = false ∧
    versionLinePassThrough "compile" "compile version devel" = false ∧
    ∃ out st,
      alterToolVersion ⟨.ok "compile version devel", .ok "/inj", fun _ => .ok "tid"⟩
        [] "compile" = .ok (out, st) ∧ out ≠ "compile version devel" := by
  refine ⟨by decide, by decide, ?_⟩
  refine ⟨_, _, rfl, ?_⟩
  intro heq
  have hl := congrArg String.length heq
  rw [String.length_append, String.length_append, String.length_append,
    String.length_append, String.length_append] at hl
  have h1 : (" +" : String).length = 2 := rfl
  have h2 : (baseName "compile").length = 7 := rfl
  have h3 : (" buildID=_/_/_/" : String).length = 15 := rfl
  have h4 : ("\n" : String).length = 1 := rfl
  rw [h1, h2, h3, h4] at hl
  omega

/-- C2 amended: the forger rewrites the probe line exactly when it has
at least three fields, its first field is the tool's base name, and its
second field is `version` OR its trailing field is prefixed with the
identity marker; every other line is printed unmodified and the call
returns success. -/
theorem alterToolVersion_passThrough_spec (env : ToolEnv) (hs : List Nat)
    (tool line : String) (hp : env.probeResult = .ok line) :
    (versionLinePassThrough (baseName tool) line = false ↔
      (3 ≤ (fieldsOf line).length ∧ (fieldsOf line).headD "" = baseName tool ∧
        ((fieldsOf line).getD 1 "" = "version" ∨
          hasPrefixStr ((fieldsOf line).getLastD "") "buildID=" = true))) ∧
    (versionLinePassThrough (baseName tool) line = true →
      alterToolVersion env hs tool = .ok (line, hs)) := by
  constructor
  · simp only [versionLinePassThrough, Bool.or_eq_false_iff, Bool.and_eq_false_iff,
      decide_eq_false_iff_not, bne_eq_false_iff_eq, Bool.not_eq_false, not_lt]
    constructor
    · rintro ⟨⟨h3, h0⟩, h1⟩
      refine ⟨h3, h0, ?_⟩
      rcases h1 with h | h
      · exact Or.inl h
      · exact Or.inr (by simpa using h)
    · rintro ⟨h3, h0, h1⟩
      refine ⟨⟨h3, h0⟩, ?_⟩
      rcases h1 with h | h
      · exact Or.inl h
      · exact Or.inr (by simpa using h)
  · intro h
    unfold alterToolVersion
    rw [hp]
    simp [h]

/-- C2 amended witness: a pass-through line (second field not `version`,
trailing field without the marker) is printed unmodified. -/
theorem alterToolVersion_passThrough_spec_witness :
    (versionLinePassThrough (baseName "compile") "compile devel go1.22" = false ↔
      (3 ≤ (fieldsOf "compile devel go1.22").length ∧
        (fieldsOf "compile devel go1.22").headD "" = baseName "compile" ∧
        ((fieldsOf "compile devel go1.22").getD 1 "" = "version" ∨
          hasPrefixStr ((fieldsOf "compile devel go1.22").getLastD "") "buildID="
            = true))) ∧
    alterToolVersion ⟨.ok "compile devel go1.22", .ok "/inj", fun _ => .ok "tid"⟩
      [] "compile" = .ok ("compile devel go1.22", []) := by
  have h := alterToolVersion_passThrough_spec
    ⟨.ok "compile devel go1.22", .ok "/inj", fun _ => .ok "tid"⟩
    [] "compile" "compile devel go1.22" rfl
  exact ⟨h.1, h.2 (by decide)⟩

/-- C3 counterexample: two distinct `(probe output bytes, tool identity)`
pairs whose concatenations coincide produce identical digests and
identical encoded tokens — changing the inputs does not always change
the token. -/
theorem addToolToHash_collision :
    (("ab" : String), ("c" : String)) ≠ (("a" : String), ("bc" : String)) ∧
    addToolToHash [] (strBytes "ab") (.ok "c")
      = addToolToHash [] (strBytes "a") (.ok "bc") ∧
    (addToolToHash [] (strBytes "ab") (.ok "c")).map (fun p => encodeBuildIDHash p.1)
      = (addToolToHash [] (strBytes "a") (.ok "bc")).map (fun p => encodeBuildIDHash p.1) := by
  refine ⟨by decide, rfl, rfl⟩

/-- C3 amended: the hashing step is deterministic — it resets the shared
digest accumulator, so the token is independent of the hasher's prior
state and a function of the two identities alone (in fact of their
concatenation); but a change of inputs that preserves the concatenation
preserves the token. -/
theorem addToolToHash_deterministic :
    (∀ s1 s2 inputHash tid,
      addToolToHash s1 inputHash tid = addToolToHash s2 inputHash tid) ∧
    (∀ i1 t1 i2 t2, i1 ++ strBytes t1 = i2 ++ strBytes t2 →
      (addToolToHash [] i1 (.ok t1)).map (fun p => encodeBuildIDHash p.1)
        = (addToolToHash [] i2 (.ok t2)).map (fun p => encodeBuildIDHash p.1)) := by
  constructor
  · intro s1 s2 i t
    rfl
  · intro i1 t1 i2 t2 h
    simp [addToolToHash, h]

/-- C3 amended witness: the concatenation-preserving input change above. -/
theorem addToolToHash_deterministic_witness :
    (addToolToHash [] (strBytes "ab") (.ok "c")).map (fun p => encodeBuildIDHash p.1)
      = (addToolToHash [] (strBytes "a") (.ok "bc")).map (fun p => encodeBuildIDHash p.1) :=
  addToolToHash_deterministic.2 (strBytes "ab") "c" (strBytes "a") "bc" (by decide)

/-- C10: when the manifest cannot be opened, `isPkgInImportCfg` reports
the package as not present (`false`) instead of signalling an error, so
the patcher proceeds to out-of-band resolution and to an append attempt
against the unreadable manifest — which is where the run finally fails,
with the append-step error, not a membership error. -/
theorem isPkgInImportCfg_unopenable (imp p pth : String)
    (resolve : String → Except String (List (String × String)))
    (pkgs : List (String × String))
    (himp : stripQuotes imp = p) (hp : p ≠ "unsafe")
    (hres : resolve p = .ok pkgs) (hlook : pkgs.lookup p = some pth) :
    isPkgInImportCfg none p = false ∧
    addMissingPkgsStep resolve none p
      = .error ("failed adding pkg '" ++ p ++ "' to importcfg: error opening file") ∧
    addMissingPkgs resolve none [imp]
      = ⟨none, [],
          some ("failed adding pkg '" ++ p ++ "' to importcfg: error opening file")⟩ := by
  have hstep : addMissingPkgsStep resolve none p
      = .error ("failed adding pkg '" ++ p ++ "' to importcfg: error opening file") := by
    unfold addMissingPkgsStep
    simp only [isPkgInImportCfg, Bool.false_eq_true, if_false, if_neg hp, hres, hlook,
      addMissingPkgToImportcfg]
    rw [String.append_assoc]
    rfl
  refine ⟨rfl, hstep, ?_⟩
  unfold addMissingPkgs
  rw [himp, hstep]

/-- C10 witness: an unreadable manifest and a resolvable package `fmt`. -/
theorem isPkgInImportCfg_unopenable_witness :
    isPkgInImportCfg none "fmt" = false ∧
    addMissingPkgsStep (fun _ => .ok [("fmt", "/pkg/fmt.a")]) none "fmt"
      = .error "failed adding pkg 'fmt' to importcfg: error opening file" ∧
    addMissingPkgs (fun _ => .ok [("fmt", "/pkg/fmt.a")]) none ["\"fmt\""]
      = ⟨none, [], some "failed adding pkg 'fmt' to importcfg: error opening file"⟩ := by
  have h := isPkgInImportCfg_unopenable "\"fmt\"" "fmt" "/pkg/fmt.a"
    (fun _ => .ok [("fmt", "/pkg/fmt.a")]) [("fmt", "/pkg/fmt.a")]
    rfl (by decide) rfl rfl
  exact h

/-- C1: the rewrite goroutines all assign the one shared `fileImports`
variable (goinject.go:147,157), so after the join the patcher receives
only the last completed file's import set, not the union. In the spec's
own two-file scenario — file A introduces `pkgX`, file B imports
nothing, B's write completes last — the patcher input is empty, the run
succeeds, and the manifest keeps no `packagefile pkgX=` line, although
patching the union would have appended one. -/
theorem fileImports_lastWriteWins :
    sharedImportsCollect [["\"pkgX\""], []] = [] ∧
    importsUnion [["\"pkgX\""], []] = ["\"pkgX\""] ∧
    processBatchRun
      ⟨["/proj/A.go", "/proj/B.go"],
       fun f => if f = "/proj/A.go" then .ok ("/tmp/d/A.go", ["\"pkgX\""])
         else .ok ("/tmp/d/B.go", []),
       fun _ => .ok [("pkgX", "/cache/pkgX.a")],
       some ["# import config"], true⟩
      ["/proj/A.go", "/proj/B.go"]
    = ⟨.returned, true, some ["# import config"]⟩ ∧
    isPkgInImportCfg (some ["# import config"]) "pkgX" = false ∧
    (addMissingPkgs (fun _ => .ok [("pkgX", "/cache/pkgX.a")])
        (some ["# import config"]) (importsUnion [["\"pkgX\""], []])).cfg
      = some ["# import config", "packagefile pkgX=/cache/pkgX.a"] := by
  refine ⟨rfl, rfl, rfl, by decide, rfl⟩

/-- C9: the deferred `os.RemoveAll(tmpDir)` is skipped on two of the
three fatal paths. With the real compiler failing, `runCommand` calls
`os.Exit(1)`, which terminates without running deferred calls; with a
rewrite failing, the `panic` happens on a spawned goroutine and crashes
the process without the main goroutine's defers; only the
manifest-patch failure (a main-goroutine panic) runs the cleanup. -/
theorem tmpDir_cleanup_not_unconditional :
    processBatchRun
      ⟨["/proj/A.go"], fun _ => .ok ("/tmp/d/A.go", []),
       fun _ => .ok [], some ["# import config"], false⟩
      ["/proj/A.go"]
    = ⟨.exited 1, false, some ["# import config"]⟩ ∧
    (processBatchRun
      ⟨["/proj/A.go"], fun _ => .error "parse error",
       fun _ => .ok [], some ["# import config"], true⟩
      ["/proj/A.go"]).tmpDirRemoved = false ∧
    (processBatchRun
      ⟨["/proj/A.go"], fun _ => .ok ("/tmp/d/A.go", ["\"pkgY\""]),
       fun _ => .error "go list failed", some ["# import config"], true⟩
      ["/proj/A.go"]).tmpDirRemoved = true := by
  refine ⟨rfl, rfl, rfl⟩

/-- C8: with the identity modifier, the rewrite pipeline's output —
re-parsed from the written file, as `processFile` does — has an import
set equal, as a set, to the original file's import set, for every
well-formed source file (spec-modelled dst parse/print round trip). -/
theorem processFile_identity_imports (tmpDir path : String) (orig : FileText)
    (hwf : WellFormedSrc (parseGoFile orig)) :
    ∀ p, p ∈ (processFileModel tmpDir path id orig).2 ↔
      p ∈ (parseGoFile orig).imports := by
  intro p
  unfold processFileModel restorerPrint
  simp only [id, parseGoFile]
  have hfilter :
      orig.file.refs.filter (fun r => ¬ orig.file.imports.contains r) = [] := by
    rw [List.filter_eq_nil_iff]
    intro r hr
    have hmem : r ∈ orig.file.imports := hwf r hr
    simp [hmem]
  rw [hfilter]
  simp

/-- C8 witness: a one-import file whose body references that import. -/
theorem processFile_identity_imports_witness :
    "fmt" ∈ (processFileModel "/tmp/d" "/proj/a.go" id
      ⟨none, ⟨["fmt"], ["fmt"], ["func main"]⟩⟩).2 ↔
    "fmt" ∈ (parseGoFile ⟨none, ⟨["fmt"], ["fmt"], ["func main"]⟩⟩).imports :=
  processFile_identity_imports "/tmp/d" "/proj/a.go"
    ⟨none, ⟨["fmt"], ["fmt"], ["func main"]⟩⟩ (fun _ hr => hr) "fmt"

/-! ## Manifest patcher lemmas (toward C6) -/

theorem isPrefixOf_append_self (l r : List Char) : l.isPrefixOf (l ++ r) = true := by
  induction l with
  | nil => simp [List.isPrefixOf]
  | cons c cs ih => simp [List.isPrefixOf, ih]

theorem listIsInfix_of_isPrefix (l r : List Char) : listIsInfix l (l ++ r) = true := by
  cases hl : l ++ r with
  | nil =>
    obtain ⟨rfl, rfl⟩ := List.append_eq_nil.mp hl
    rfl
  | cons c rest =>
    show (l.isPrefixOf (c :: rest) || listIsInfix l rest) = true
    rw [← hl, isPrefixOf_append_self, Bool.true_or]

theorem containsSub_self_append (pat rest : String) :
    containsSub (pat ++ rest) pat = true := by
  show listIsInfix pat.toList (pat ++ rest).toList = true
  rw [show (pat ++ rest).toList = pat.toList ++ rest.toList from rfl]
  exact listIsInfix_of_isPrefix _ _

theorem present_after_append (L : List String) (p path : String) :
    isPkgInImportCfg (some (L ++ [pkgLine p path])) p = true := by
  simp only [isPkgInImportCfg, List.any_append]
  have h1 : [pkgLine p path].any
      (fun line => containsSub line ("packagefile " ++ p ++ "=")) = true := by
    simp only [List.any_cons, List.any_nil, Bool.or_false]
    exact containsSub_self_append ("packagefile " ++ p ++ "=") path
  rw [h1, Bool.or_true]

theorem present_mono (L S : List String) (p : String)
    (h : isPkgInImportCfg (some L) p = true) :
    isPkgInImportCfg (some (L ++ S)) p = true := by
  simp only [isPkgInImportCfg, List.any_append] at h ⊢
  rw [h, Bool.true_or]

theorem addMissingPkgsStep_ok_shape
    (resolve : String → Except String (List (String × String)))
    (L : List String) (p : String) (cfg2 : Importcfg) (app? : Option String)
    (h : addMissingPkgsStep resolve (some L) p = .ok (cfg2, app?)) :
    (app? = none ∧ cfg2 = some L ∧
      (isPkgInImportCfg (some L) p = true ∨ p = "unsafe")) ∨
    (app? = some p ∧ isPkgInImportCfg (some L) p = false ∧
      ∃ path, cfg2 = some (L ++ [pkgLine p path])) := by
  unfold addMissingPkgsStep at h
  by_cases h1 : isPkgInImportCfg (some L) p = true
  · rw [if_pos h1] at h
    obtain ⟨rfl, rfl⟩ : cfg2 = some L ∧ app? = none := by
      constructor <;> cases h <;> rfl
    exact Or.inl ⟨rfl, rfl, Or.inl h1⟩
  · have h1f : isPkgInImportCfg (some L) p = false := by
      simpa using h1
    rw [if_neg h1] at h
    by_cases h2 : p = "unsafe"
    · rw [if_pos h2] at h
      obtain ⟨rfl, rfl⟩ : cfg2 = some L ∧ app? = none := by
        constructor <;> cases h <;> rfl
      exact Or.inl ⟨rfl, rfl, Or.inr h2⟩
    · rw [if_neg h2] at h
      cases hres : resolve p with
      | error e =>
        simp only [hres] at h
        exact Except.noConfusion h
      | ok pkgs =>
        simp only [hres] at h
        cases hlook : pkgs.lookup p with
        | none =>
          simp only [hlook] at h
          exact Except.noConfusion h
        | some path =>
          simp only [hlook, addMissingPkgToImportcfg] at h
          obtain ⟨rfl, rfl⟩ : cfg2 = some (L ++ [pkgLine p path]) ∧ app? = some p := by
            constructor <;> cases h <;> rfl
          exact Or.inr ⟨rfl, h1f, path, rfl⟩

theorem addMissingPkgs_skip_run
    (resolve : String → Except String (List (String × String)))
    (M : List String) (imports : List String)
    (h : ∀ imp ∈ imports, stripQuotes imp = "unsafe" ∨
      isPkgInImportCfg (some M) (stripQuotes imp) = true) :
    addMissingPkgs resolve (some M) imports = ⟨some M, [], none⟩ := by
  induction imports with
  | nil => rfl
  | cons imp rest ih =>
    have hstep : addMissingPkgsStep resolve (some M) (stripQuotes imp)
        = .ok (some M, none) := by
      rcases h imp (List.mem_cons_self imp rest) with hu | hpres
      · unfold addMissingPkgsStep
        by_cases hp : isPkgInImportCfg (some M) (stripQuotes imp) = true
        · rw [if_pos hp]
        · rw [if_neg hp, if_pos hu]
      · unfold addMissingPkgsStep
        rw [if_pos hpres]
    have ihh := ih (fun i hi => h i (List.mem_cons_of_mem _ hi))
    simp [addMissingPkgs, hstep, ihh]

theorem addMissingPkgs_run
    (resolve : String → Except String (List (String × String)))
    (imports : List String) : ∀ (L : List String),
    (addMissingPkgs resolve (some L) imports).err = none →
    ∃ S, (addMissingPkgs resolve (some L) imports).cfg = some (L ++ S) ∧
      (addMissingPkgs resolve (some L) imports).appended.Nodup ∧
      (∀ q ∈ (addMissingPkgs resolve (some L) imports).appended,
        isPkgInImportCfg (some L) q = false ∧
        isPkgInImportCfg (some (L ++ S)) q = true) ∧
      (∀ imp ∈ imports, stripQuotes imp = "unsafe" ∨
        isPkgInImportCfg (some (L ++ S)) (stripQuotes imp) = true) := by
  induction imports with
  | nil =>
    intro L _
    exact ⟨[], by simp [addMissingPkgs], by simp [addMissingPkgs],
      by simp [addMissingPkgs], by simp⟩
  | cons imp rest ih =>
    intro L herr
    cases hstep : addMissingPkgsStep resolve (some L) (stripQuotes imp) with
    | error e =>
      exfalso
      unfold addMissingPkgs at herr
      rw [hstep] at herr
      cases herr
    | ok pr =>
      obtain ⟨cfg2, app?⟩ := pr
      have hrun : addMissingPkgs resolve (some L) (imp :: rest)
          = ⟨(addMissingPkgs resolve cfg2 rest).cfg,
             app?.toList ++ (addMissingPkgs resolve cfg2 rest).appended,
             (addMissingPkgs resolve cfg2 rest).err⟩ := by
        simp only [addMissingPkgs, hstep]
      have herr2 : (addMissingPkgs resolve cfg2 rest).err = none := by
        rw [hrun] at herr
        exact herr
      rcases addMissingPkgsStep_ok_shape resolve L (stripQuotes imp) cfg2 app? hstep with
        ⟨rfl, rfl, hskip⟩ | ⟨rfl, hnotpres, path, rfl⟩
      · -- skip step: the manifest is unchanged
        obtain ⟨S, hcfg, hnodup, happ, hrest⟩ := ih L herr2
        refine ⟨S, ?_, ?_, ?_, ?_⟩
        · rw [hrun]; exact hcfg
        · rw [hrun]; simpa using hnodup
        · rw [hrun]
          simpa using happ
        · intro i hi
          rcases List.mem_cons.mp hi with rfl | hm
          · rcases hskip with hpres | hu
            · exact Or.inr (present_mono L S _ hpres)
            · exact Or.inl hu
          · exact hrest i hm
      · -- append step: the manifest grew by one line for this package
        obtain ⟨S, hcfg, hnodup, happ, hrest⟩ := ih (L ++ [pkgLine (stripQuotes imp) path]) herr2
        have hassoc : (L ++ [pkgLine (stripQuotes imp) path]) ++ S
            = L ++ ([pkgLine (stripQuotes imp) path] ++ S) := by
          rw [List.append_assoc]
        refine ⟨[pkgLine (stripQuotes imp) path] ++ S, ?_, ?_, ?_, ?_⟩
        · rw [hrun, hcfg, hassoc]
        · rw [hrun]
          simp only [Option.toList_some, List.cons_append, List.nil_append]
          refine List.Nodup.cons ?_ hnodup
          intro hmem
          have := (happ _ hmem).1
          rw [present_after_append L (stripQuotes imp) path] at this
          cases this
        · rw [hrun]
          intro q hq
          simp only [Option.toList_some, List.cons_append, List.nil_append,
            List.mem_cons] at hq
          rcases hq with rfl | hm
          · refine ⟨hnotpres, ?_⟩
            rw [← hassoc]
            exact present_mono _ S _ (present_after_append L (stripQuotes imp) path)
          · have h2 := happ q hm
            refine ⟨?_, by rw [← hassoc]; exact h2.2⟩
            by_cases hqL : isPkgInImportCfg (some L) q = true
            · have := present_mono L [pkgLine (stripQuotes imp) path] q hqL
              rw [h2.1] at this
              cases this
            · simpa using hqL
        · intro i hi
          rcases List.mem_cons.mp hi with hq | hm
          · refine Or.inr ?_
            rw [hq, ← hassoc]
            exact present_mono _ S _ (present_after_append L (stripQuotes imp) path)
          · rcases hrest i hm with hu | hpres
            · exact Or.inl hu
            · refine Or.inr ?_
              rw [← hassoc]
              exact hpres

/-- C6: manifest patching is idempotent and at-most-once per import
path. After a successful run over `imports` turned manifest `L` into
`M'`: a second run with the same imports appends nothing and returns
`M'` unchanged; the names appended in one run are pairwise distinct
(a duplicated import is appended once, because the membership scan
re-reads the file); no appended name was already present; and the run
only appended to `L`, never rewrote it. -/
theorem addMissingPkgs_idempotent
    (resolve : String → Except String (List (String × String)))
    (L M' : List String) (imports app : List String)
    (h : addMissingPkgs resolve (some L) imports = ⟨some M', app, none⟩) :
    addMissingPkgs resolve (some M') imports = ⟨some M', [], none⟩ ∧
    app.Nodup ∧
    (∀ q ∈ app, isPkgInImportCfg (some L) q = false) ∧
    ∃ S, M' = L ++ S := by
  have herr : (addMissingPkgs resolve (some L) imports).err = none := by rw [h]
  obtain ⟨S, hcfg, hnodup, happ, hall⟩ := addMissingPkgs_run resolve imports L herr
  rw [h] at hcfg hnodup happ
  have hM : M' = L ++ S := Option.some.inj hcfg
  refine ⟨?_, hnodup, fun q hq => (happ q hq).1, S, hM⟩
  apply addMissingPkgs_skip_run
  intro imp hi
  rcases hall imp hi with hu | hpres
  · exact Or.inl hu
  · refine Or.inr ?_
    rw [hM]
    exact hpres

/-- C6 witness: one run that appends `pkgX` exactly once for a twice
listed import, and a second run over the patched manifest that appends
nothing. -/
theorem addMissingPkgs_idempotent_witness :
    addMissingPkgs (fun _ => .ok [("pkgX", "/cache/pkgX.a")])
      (some ["# import config", "packagefile pkgX=/cache/pkgX.a"])
      ["\"pkgX\"", "\"pkgX\""]
      = ⟨some ["# import config", "packagefile pkgX=/cache/pkgX.a"], [], none⟩ ∧
    (["pkgX"] : List String).Nodup ∧
    (∀ q ∈ (["pkgX"] : List String),
      isPkgInImportCfg (some ["# import config"]) q = false) ∧
    ∃ S, ["# import config", "packagefile pkgX=/cache/pkgX.a"]
      = ["# import config"] ++ S :=
  addMissingPkgs_idempotent (fun _ => .ok [("pkgX", "/cache/pkgX.a")])
    ["# import config"] ["# import config", "packagefile pkgX=/cache/pkgX.a"]
    ["\"pkgX\"", "\"pkgX\""] ["pkgX"] (by rfl)

end Goinject
